import Mathlib

/-!
# Verification of `SyncSetInputStreamHandler`

A shallow embedding of
`mediapipe/framework/stream_handler/sync_set_input_stream_handler.cc`,
together with proofs about the behaviour of its three operations:

* `prepareForRun`    — `SyncSetInputStreamHandler::PrepareForRun` (group building),
* `getNodeReadiness` — `SyncSetInputStreamHandler::GetNodeReadiness`,
* `fillInputSet`     — `SyncSetInputStreamHandler::FillInputSet`.

Streams are external collaborators: the embedding abstracts a stream's
`MinTimestampOrBound` as a function `Nat → Timestamp × Bool` (value, empty
flag) and `PopPacketAtTimestamp` as a function returning
(packet, num_packets_dropped, stream_is_done).  Fatal `CHECK` failures are
modelled by `Option`/`Except` failure results.
-/

/-- `mediapipe::Timestamp`, restricted to the structure the handler uses:
ordinary values (an `Int`, mirroring the int64 payload) plus the maximal
sentinel `Timestamp::Done()`. -/
inductive Timestamp where
  | ts (v : Int)
  | done
deriving DecidableEq, Repr

namespace Timestamp

/-- `operator<` on timestamps: `Done` is the maximum. -/
def ltb : Timestamp → Timestamp → Bool
  | done, _ => false
  | ts _, done => true
  | ts a, ts b => decide (a < b)

/-- `operator<=` on timestamps. -/
def leb : Timestamp → Timestamp → Bool
  | _, done => true
  | done, ts _ => false
  | ts a, ts b => decide (a ≤ b)

instance : LT Timestamp := ⟨fun a b => ltb a b = true⟩
instance : LE Timestamp := ⟨fun a b => leb a b = true⟩

instance (a b : Timestamp) : Decidable (a < b) :=
  inferInstanceAs (Decidable (ltb a b = true))

instance (a b : Timestamp) : Decidable (a ≤ b) :=
  inferInstanceAs (Decidable (leb a b = true))

/-- `std::min` on timestamps: `std::min(a, b)` is `b` when `b < a`, else `a`. -/
def tmin (a b : Timestamp) : Timestamp := if b < a then b else a

end Timestamp

/-- The tri-state verdict `mediapipe::NodeReadiness` (the three values the
handler returns). -/
inductive NodeReadiness where
  | kNotReady
  | kReadyForProcess
  | kReadyForClose
deriving DecidableEq, Repr

/-- The mutex-guarded state of `SyncSetInputStreamHandler`:
`sync_sets_`, `ready_sync_set_index_` (−1 when no sync set is ready) and
`ready_timestamp_`.  Stream ids (`CollectionItemId`) are modelled as `Nat`. -/
structure HandlerState where
  sync_sets : List (List Nat)
  ready_sync_set_index : Int
  ready_timestamp : Timestamp
deriving DecidableEq, Repr

/-- The inner loop of `GetNodeReadiness` over one sync set: starting from
accumulators `mv` (`*min_stream_timestamp`) and `mb` (`min_bound`), read each
member stream's `MinTimestampOrBound` and take the running minima; the bound
minimum only collects streams whose `empty` flag is set. -/
def streamLoop (stream : Nat → Timestamp × Bool) :
    List Nat → Timestamp → Timestamp → Timestamp × Timestamp
  | [], mv, mb => (mv, mb)
  | id :: rest, mv, mb =>
      let r := stream id
      streamLoop stream rest (Timestamp.tmin mv r.1)
        (if r.2 then Timestamp.tmin mb r.1 else mb)

/-- `*min_stream_timestamp` after scanning a sync set (both accumulators start
at `Timestamp::Done()`). -/
def minValue (stream : Nat → Timestamp × Bool) (s : List Nat) : Timestamp :=
  (streamLoop stream s Timestamp.done Timestamp.done).1

/-- `min_bound` after scanning a sync set. -/
def minBound (stream : Nat → Timestamp × Bool) (s : List Nat) : Timestamp :=
  (streamLoop stream s Timestamp.done Timestamp.done).2

/-- The outer loop of `GetNodeReadiness` over `sync_sets_`.  `todo` is the
suffix not yet scanned, `kept` the prefix already scanned and not erased,
`idx`/`rts` the current `ready_sync_set_index_`/`ready_timestamp_`, and `msts`
the current value of the `*min_stream_timestamp` out-parameter.  A sync set
whose minimum is `Done` is erased (it is simply not kept, which shifts later
sets down one position exactly as `sync_sets_.erase` does); a ready sync set
arms the cache when its timestamp is strictly below the current
`ready_timestamp_`.  The `CHECK_EQ(min_bound, *min_stream_timestamp)` in the
remaining branch is modelled by returning `none` when it would fail. -/
def scanSets (stream : Nat → Timestamp × Bool) :
    List (List Nat) → List (List Nat) → Int → Timestamp → Timestamp →
    Option (List (List Nat) × Int × Timestamp × Timestamp)
  | [], kept, idx, rts, msts => some (kept, idx, rts, msts)
  | s :: rest, kept, idx, rts, _ =>
      let mv := minValue stream s
      let mb := minBound stream s
      if mv = Timestamp.done then
        scanSets stream rest kept idx rts mv
      else if mv < mb then
        if mv < rts then
          scanSets stream rest (kept ++ [s]) (kept.length : Int) mv mv
        else
          scanSets stream rest (kept ++ [s]) idx rts mv
      else if mb = mv then
        scanSets stream rest (kept ++ [s]) idx rts mv
      else
        none

/-- `SyncSetInputStreamHandler::GetNodeReadiness`.  Returns the verdict, the
value of the `*min_stream_timestamp` out-parameter, and the updated state;
`none` models the fatal `CHECK_EQ` failure inside the scan.  (When the scan
returns `kNotReady`, the out-parameter holds whatever the loop last wrote to
it — the source marks its value undefined in that case.) -/
def getNodeReadiness (stream : Nat → Timestamp × Bool) (st : HandlerState) :
    Option (NodeReadiness × Timestamp × HandlerState) :=
  if 0 ≤ st.ready_sync_set_index then
    some (NodeReadiness.kReadyForProcess, st.ready_timestamp, st)
  else
    match scanSets stream st.sync_sets [] st.ready_sync_set_index
        st.ready_timestamp Timestamp.done with
    | none => none
    | some (sets, idx, rts, msts) =>
        let st' : HandlerState := ⟨sets, idx, rts⟩
        if 0 ≤ idx then
          some (NodeReadiness.kReadyForProcess, rts, st')
        else if sets = [] then
          some (NodeReadiness.kReadyForClose, Timestamp.done, st')
        else
          some (NodeReadiness.kNotReady, msts, st')

/-- The per-stream loop of `FillInputSet`: pop a packet at `t` from every
member stream of the ready sync set and write it (with the stream-done flag)
into the input set's slot for that stream.  `pop id t` abstracts
`PopPacketAtTimestamp`, returning (packet, num_packets_dropped,
stream_is_done); packets are modelled as `Int` payloads.  The
`CHECK_EQ(num_packets_dropped, 0)` is modelled by returning `none`. -/
def fillLoop (pop : Nat → Timestamp → Int × Nat × Bool) (t : Timestamp) :
    List Nat → (Nat → Option (Int × Bool)) → Option (Nat → Option (Int × Bool))
  | [], out => some out
  | id :: rest, out =>
      let r := pop id t
      if r.2.1 ≠ 0 then
        none
      else
        fillLoop pop t rest (fun j => if j = id then some (r.1, r.2.2) else out j)

/-- `SyncSetInputStreamHandler::FillInputSet`.  The input set is modelled as a
map from stream id to an optional (packet, stream_is_done) slot.  `none`
models a fatal `CHECK` failure: the timestamp not being a stream-allowed value
(`Done` is not), no sync set being armed (`CHECK_LE(0,
ready_sync_set_index_)`), a timestamp differing from the armed one
(`CHECK_EQ(input_timestamp, ready_timestamp_)`), the unchecked vector access
`sync_sets_[ready_sync_set_index_]` being out of bounds, or a pop dropping
packets.  On success the cache is disarmed. -/
def fillInputSet (pop : Nat → Timestamp → Int × Nat × Bool)
    (input_timestamp : Timestamp) (st : HandlerState)
    (input_set : Nat → Option (Int × Bool)) :
    Option ((Nat → Option (Int × Bool)) × HandlerState) :=
  if input_timestamp = Timestamp.done then
    none
  else if ¬ 0 ≤ st.ready_sync_set_index then
    none
  else if input_timestamp ≠ st.ready_timestamp then
    none
  else
    match st.sync_sets[st.ready_sync_set_index.toNat]? with
    | none => none
    | some syncSet =>
        match fillLoop pop input_timestamp syncSet input_set with
        | none => none
        | some out =>
            some (out, ⟨st.sync_sets, -1, Timestamp.done⟩)

/-- The fatal configuration errors of `PrepareForRun`, each carrying the
offending tag/index reference where the source's `CHECK` message names one. -/
inductive PrepareError (Ref : Type) where
  | emptyGroup
  | unresolvedRef (r : Ref)
  | duplicateStream (r : Ref)
deriving DecidableEq, Repr

/-- The inner loop of `PrepareForRun` over one configured sync set: resolve
each tag/index reference (`resolve` abstracts `ParseTagIndex` +
`input_stream_managers_.GetId` + the `IsValid` check; `none` means the
reference does not resolve), fail if the stream id is already in `used_ids`,
and otherwise append the id to the group and to `used_ids`. -/
def buildGroup {Ref : Type} (resolve : Ref → Option Nat) :
    List Ref → List Nat → List Nat →
    Except (PrepareError Ref) (List Nat × List Nat)
  | [], grp, used => Except.ok (grp, used)
  | r :: rest, grp, used =>
      match resolve r with
      | none => Except.error (PrepareError.unresolvedRef r)
      | some id =>
          if id ∈ used then
            Except.error (PrepareError.duplicateStream r)
          else
            buildGroup resolve rest (grp ++ [id]) (used ++ [id])

/-- The outer loop of `PrepareForRun` over the configured sync sets:
`CHECK_LT(0, sync_set.tag_index_size())` rejects an empty group, then the
group's references are resolved, accumulating the built sets and the set of
used stream ids. -/
def buildSyncSets {Ref : Type} (resolve : Ref → Option Nat) :
    List (List Ref) → List (List Nat) → List Nat →
    Except (PrepareError Ref) (List (List Nat) × List Nat)
  | [], acc, used => Except.ok (acc, used)
  | g :: rest, acc, used =>
      if g.isEmpty then
        Except.error PrepareError.emptyGroup
      else
        match buildGroup resolve g [] used with
        | Except.error e => Except.error e
        | Except.ok (grp, used') => buildSyncSets resolve rest (acc ++ [grp]) used'

/-- `SyncSetInputStreamHandler::PrepareForRun` (the sync-set-building part
under the lock).  The node's streams are the ids `0, …, numStreams − 1`
(mirroring `BeginId`/`EndId`); every id not claimed by an explicit group forms
the implicit trailing group, appended only when non-empty; the readiness cache
is reset to disarmed. -/
def prepareForRun {Ref : Type} (resolve : Ref → Option Nat) (numStreams : Nat)
    (config : List (List Ref)) : Except (PrepareError Ref) HandlerState :=
  match buildSyncSets resolve config [] [] with
  | Except.error e => Except.error e
  | Except.ok (sets, used) =>
      let remaining := (List.range numStreams).filter (fun id => id ∉ used)
      Except.ok ⟨if remaining = [] then sets else sets ++ [remaining],
        -1, Timestamp.done⟩

/-- Spec-level predicate (used to state the configuration-error claims):
some configured group is empty. -/
def hasEmptyGroup {Ref : Type} (config : List (List Ref)) : Bool :=
  config.any (fun g => g.isEmpty)

/-- Spec-level predicate: some reference in some configured group does not
resolve to a stream id. -/
def hasUnresolvedRef {Ref : Type} (resolve : Ref → Option Nat)
    (config : List (List Ref)) : Bool :=
  config.any (fun g => g.any (fun r => (resolve r).isNone))

/-- Modelled from the spec: the stream ids claimed by one group (the
resolutions of its references). -/
def claimedIds {Ref : Type} (resolve : Ref → Option Nat) (g : List Ref) :
    List Nat :=
  g.filterMap resolve

/-- Modelled from the spec: "a stream identifier claimed by more than one
group" — some id claimed by one configured group is also claimed by a later
(hence different) configured group. -/
def streamInMoreThanOneGroup {Ref : Type} (resolve : Ref → Option Nat) :
    List (List Ref) → Bool
  | [] => false
  | g :: rest =>
      (claimedIds resolve g).any
        (fun id => rest.any (fun h => (claimedIds resolve h).contains id)) ||
      streamInMoreThanOneGroup resolve rest

/-- The cache-coherence invariant of the handler state: the index sentinel −1
goes together with the timestamp sentinel `Done`, and an armed index is a
valid position in `sync_sets_`. -/
def CacheInv (st : HandlerState) : Prop :=
  (st.ready_sync_set_index = -1 ↔ st.ready_timestamp = Timestamp.done) ∧
  (st.ready_sync_set_index ≠ -1 →
    0 ≤ st.ready_sync_set_index ∧
      st.ready_sync_set_index.toNat < st.sync_sets.length)

/-- The sync sets that survive one scan: those whose minimum stream value is
not the exhausted constant. -/
def aliveSets (stream : Nat → Timestamp × Bool) (sets : List (List Nat)) :
    List (List Nat) :=
  sets.filter (fun s => decide (minValue stream s ≠ Timestamp.done))

/-- The loop invariant of the scan in `GetNodeReadiness`, relating the kept
prefix `kept` to the current cache `idx`/`rts`; `rts0` is the
`ready_timestamp_` the scan started from.  Either nothing armed yet (`idx` is
−1): `rts` still holds `rts0` and no kept ready set had a value strictly below
`rts0`; or the cache is armed at a valid index of a kept, ready sync set whose
value is `rts`, minimal among the kept ready sets, with ties resolved to the
earliest index. -/
def ScanInv (stream : Nat → Timestamp × Bool) (kept : List (List Nat))
    (idx : Int) (rts rts0 : Timestamp) : Prop :=
  (∀ s ∈ kept, minValue stream s ≠ Timestamp.done) ∧
  (if idx = -1 then
    rts = rts0 ∧
      ∀ s ∈ kept, minValue stream s < minBound stream s →
        ¬ minValue stream s < rts0
  else
    0 ≤ idx ∧ ∃ h : idx.toNat < kept.length,
      minValue stream (kept.get ⟨idx.toNat, h⟩) <
          minBound stream (kept.get ⟨idx.toNat, h⟩) ∧
      minValue stream (kept.get ⟨idx.toNat, h⟩) = rts ∧
      ∀ (j : Nat) (hj : j < kept.length),
        minValue stream (kept.get ⟨j, hj⟩) < minBound stream (kept.get ⟨j, hj⟩) →
          rts ≤ minValue stream (kept.get ⟨j, hj⟩) ∧
          (minValue stream (kept.get ⟨j, hj⟩) = rts → idx ≤ (j : Int)))

/-- A concrete stream state: stream 0 holds a packet at 4, every other stream
is empty with bound 5. -/
def wStreamA : Nat → Timestamp × Bool := fun id =>
  if id = 0 then (Timestamp.ts 4, false) else (Timestamp.ts 5, true)

/-- A concrete stream state: stream 0 holds a packet at 7, every other stream
holds a packet at 5. -/
def wStreamB : Nat → Timestamp × Bool := fun id =>
  if id = 0 then (Timestamp.ts 7, false) else (Timestamp.ts 5, false)

/-- A concrete stream state: stream 0 is empty with bound 5, every other
stream is exhausted. -/
def cStream : Nat → Timestamp × Bool := fun id =>
  if id = 0 then (Timestamp.ts 5, true) else (Timestamp.done, true)

/-- A concrete pop function that never drops packets: stream `id` yields
packet payload `id`. -/
def popOk : Nat → Timestamp → Int × Nat × Bool := fun id _ => ((id : Int), 0, false)

/-- A concrete pop function that reports one dropped packet on stream 1. -/
def popBad : Nat → Timestamp → Int × Nat × Bool := fun id _ =>
  ((id : Int), if id = 1 then 1 else 0, false)

/-- A concrete reference resolver over `Ref := Nat`: references 0, 1, 2
resolve to stream ids 0, 1, 2; everything else is unresolvable. -/
def resolveId : Nat → Option Nat := fun r => if r < 3 then some r else none

/-- A concrete empty input set. -/
def emptyInput : Nat → Option (Int × Bool) := fun _ => none

namespace Timestamp

theorem lt_def {a b : Timestamp} : a < b ↔ ltb a b = true := Iff.rfl

theorem le_def {a b : Timestamp} : a ≤ b ↔ leb a b = true := Iff.rfl

theorem le_refl (a : Timestamp) : a ≤ a := by
  cases a <;> simp [le_def, leb]

theorem le_trans {a b c : Timestamp} (h1 : a ≤ b) (h2 : b ≤ c) : a ≤ c := by
  cases a <;> cases b <;> cases c <;>
    simp_all [le_def, leb] <;> omega

theorem le_antisymm {a b : Timestamp} (h1 : a ≤ b) (h2 : b ≤ a) : a = b := by
  cases a <;> cases b <;> simp_all [le_def, leb] <;> omega

theorem not_lt {a b : Timestamp} : ¬ a < b ↔ b ≤ a := by
  cases a <;> cases b <;> simp [lt_def, le_def, ltb, leb] <;> omega

theorem le_of_lt {a b : Timestamp} (h : a < b) : a ≤ b := by
  cases a <;> cases b <;> simp_all [lt_def, le_def, ltb, leb] <;> omega

theorem lt_irrefl (a : Timestamp) : ¬ a < a := by
  cases a <;> simp [lt_def, ltb]

theorem lt_of_lt_of_le {a b c : Timestamp} (h1 : a < b) (h2 : b ≤ c) : a < c := by
  cases a <;> cases b <;> cases c <;>
    simp_all [lt_def, le_def, ltb, leb] <;> omega

theorem lt_of_le_of_lt {a b c : Timestamp} (h1 : a ≤ b) (h2 : b < c) : a < c := by
  cases a <;> cases b <;> cases c <;>
    simp_all [lt_def, le_def, ltb, leb] <;> omega

theorem le_done (a : Timestamp) : a ≤ done := by
  cases a <;> simp [le_def, leb]

theorem lt_done_of_ne {a : Timestamp} (h : a ≠ done) : a < done := by
  cases a
  · simp [lt_def, ltb]
  · exact absurd rfl h

theorem ne_done_of_lt {a b : Timestamp} (h : a < b) : a ≠ done := by
  cases a
  · exact fun hc => Timestamp.noConfusion hc
  · cases b <;> simp_all [lt_def, ltb]

theorem tmin_le_left (a b : Timestamp) : tmin a b ≤ a := by
  unfold tmin
  split
  · rename_i h
    exact le_of_lt h
  · exact le_refl a

theorem tmin_le_right (a b : Timestamp) : tmin a b ≤ b := by
  unfold tmin
  split
  · exact le_refl b
  · rename_i h
    exact not_lt.mp h

theorem le_tmin {a b c : Timestamp} (h1 : c ≤ a) (h2 : c ≤ b) : c ≤ tmin a b := by
  unfold tmin
  split <;> assumption

end Timestamp

/-- The two running minima of the stream loop satisfy `mv ≤ mb` whenever they
start that way: the bound-only minimum is a minimum over a subset of the
contributions to the overall minimum. -/
theorem streamLoop_fst_le_snd (stream : Nat → Timestamp × Bool) :
    ∀ (l : List Nat) (mv mb : Timestamp), mv ≤ mb →
      (streamLoop stream l mv mb).1 ≤ (streamLoop stream l mv mb).2 := by
  intro l
  induction l with
  | nil => exact fun mv mb h => h
  | cons id rest ih =>
      intro mv mb h
      simp only [streamLoop]
      cases he : (stream id).2 with
      | false =>
          simp only [he, if_neg Bool.false_ne_true]
          exact ih _ _ (Timestamp.le_trans (Timestamp.tmin_le_left _ _) h)
      | true =>
          simp only [he, if_pos rfl]
          exact ih _ _ (Timestamp.le_tmin
            (Timestamp.le_trans (Timestamp.tmin_le_left _ _) h)
            (Timestamp.tmin_le_right _ _))

/-- For every sync set and every stream state, `*min_stream_timestamp` is at
most `min_bound`. -/
theorem minValue_le_minBound (stream : Nat → Timestamp × Bool) (s : List Nat) :
    minValue stream s ≤ minBound stream s :=
  streamLoop_fst_le_snd stream s _ _ (Timestamp.le_refl _)

/-- When a sync set is neither exhausted nor ready, its `min_bound` equals its
minimum value (the condition of the source's `CHECK_EQ`). -/
theorem minBound_eq_of_not_lt {stream : Nat → Timestamp × Bool} {s : List Nat}
    (h : ¬ minValue stream s < minBound stream s) :
    minBound stream s = minValue stream s :=
  Timestamp.le_antisymm (Timestamp.not_lt.mp h) (minValue_le_minBound stream s)

/-- The scan loop never aborts: its `CHECK_EQ(min_bound,
*min_stream_timestamp)` branch is unreachable. -/
theorem scanSets_ne_none (stream : Nat → Timestamp × Bool) :
    ∀ (todo kept : List (List Nat)) (idx : Int) (rts msts : Timestamp),
      scanSets stream todo kept idx rts msts ≠ none := by
  intro todo
  induction todo with
  | nil =>
      intro kept idx rts msts
      simp [scanSets]
  | cons s rest ih =>
      intro kept idx rts msts
      simp only [scanSets]
      split
      · exact ih _ _ _ _
      · split
        · split
          · exact ih _ _ _ _
          · exact ih _ _ _ _
        · split
          · exact ih _ _ _ _
          · rename_i h1 h2 h3
            exact absurd (minBound_eq_of_not_lt h2) h3

/-- The readiness evaluation as a whole never aborts. -/
theorem getNodeReadiness_ne_none (stream : Nat → Timestamp × Bool)
    (st : HandlerState) : getNodeReadiness stream st ≠ none := by
  unfold getNodeReadiness
  split
  · simp
  · cases hs : scanSets stream st.sync_sets [] st.ready_sync_set_index
        st.ready_timestamp Timestamp.done with
    | none => exact absurd hs (scanSets_ne_none stream _ _ _ _ _)
    | some res =>
        obtain ⟨sets, idx, rts, msts⟩ := res
        simp only [hs]
        split
        · simp
        · split
          · simp
          · simp

/-- **C10**: for every sync set and every stream state, the minimum bound over
the currently-empty streams is at least the minimum value over all member
streams (each empty stream's bound also participates in the overall minimum),
so the `CHECK_EQ(min_bound, *min_stream_timestamp)` in the evaluator's
non-ready branch can never fail: readiness evaluation never aborts, for all
stream states and handler states. -/
theorem c10_min_bound_check_never_fails :
    (∀ (stream : Nat → Timestamp × Bool) (s : List Nat),
        minValue stream s ≤ minBound stream s) ∧
    (∀ (stream : Nat → Timestamp × Bool) (st : HandlerState),
        getNodeReadiness stream st ≠ none) :=
  ⟨fun stream s => minValue_le_minBound stream s,
   fun stream st => getNodeReadiness_ne_none stream st⟩

/-- **C1**: a scanned sync set whose minimum stream value is not the exhausted
constant is declared ready at timestamp `min_value` exactly when `min_bound`
is strictly greater than `min_value` (shown for a fresh scan of that set:
`kReadyForProcess` at `min_value` when strictly greater, `kNotReady` with no
arming otherwise); and whenever `min_bound` equals `min_value`, the scan step
keeps the set, arms nothing, and moves on to the next set. -/
theorem c1_ready_iff_bound_strictly_greater (stream : Nat → Timestamp × Bool)
    (s : List Nat) (hmv : minValue stream s ≠ Timestamp.done) :
    (getNodeReadiness stream ⟨[s], -1, Timestamp.done⟩ =
      if minValue stream s < minBound stream s then
        some (NodeReadiness.kReadyForProcess, minValue stream s,
          ⟨[s], 0, minValue stream s⟩)
      else
        some (NodeReadiness.kNotReady, minValue stream s,
          ⟨[s], -1, Timestamp.done⟩)) ∧
    (∀ (rest kept : List (List Nat)) (idx : Int) (rts msts : Timestamp),
      minBound stream s = minValue stream s →
      scanSets stream (s :: rest) kept idx rts msts =
        scanSets stream rest (kept ++ [s]) idx rts (minValue stream s)) := by
  constructor
  · have hlt : minValue stream s < Timestamp.done := Timestamp.lt_done_of_ne hmv
    have h01 : ¬ (0 : Int) ≤ -1 := by decide
    by_cases hr : minValue stream s < minBound stream s
    · simp [getNodeReadiness, scanSets, hmv, hr, hlt, h01]
    · have hbe : minBound stream s = minValue stream s := minBound_eq_of_not_lt hr
      have hirr := Timestamp.lt_irrefl (minValue stream s)
      simp [getNodeReadiness, scanSets, hmv, hr, hbe, h01, hirr]
  · intro rest kept idx rts msts hbe
    have hirr := Timestamp.lt_irrefl (minValue stream s)
    simp [scanSets, hmv, hbe, hirr]

theorem get_append_lt {α : Type} (l : List α) (a : α) (j : Nat)
    (hj : j < l.length) (hj2 : j < (l ++ [a]).length) :
    (l ++ [a]).get ⟨j, hj2⟩ = l.get ⟨j, hj⟩ := by
  simp only [List.get_eq_getElem]
  exact List.getElem_append_left hj

theorem get_append_last {α : Type} (l : List α) (a : α)
    (h : l.length < (l ++ [a]).length) :
    (l ++ [a]).get ⟨l.length, h⟩ = a := by
  simp only [List.get_eq_getElem]
  exact List.getElem_concat_length l a l.length rfl h

/-- From the scan invariant: the current `ready_timestamp_` is a lower bound
on the value of every kept ready sync set. -/
theorem scanInv_lower_bound {stream : Nat → Timestamp × Bool}
    {kept : List (List Nat)} {idx : Int} {rts rts0 : Timestamp}
    (hinv : ScanInv stream kept idx rts rts0)
    (s : List Nat) (hs : s ∈ kept)
    (hready : minValue stream s < minBound stream s) :
    rts ≤ minValue stream s := by
  obtain ⟨-, hB⟩ := hinv
  by_cases hidx : idx = -1
  · rw [if_pos hidx] at hB
    obtain ⟨hrr, hnone⟩ := hB
    rw [hrr]
    exact Timestamp.not_lt.mp (hnone s hs hready)
  · rw [if_neg hidx] at hB
    obtain ⟨-, hlen, -, -, hminimal⟩ := hB
    obtain ⟨j, hj, rfl⟩ := List.mem_iff_get.mp hs
    exact (hminimal j.1 j.2 hready).1

/-- Appending a scanned sync set that did not arm the cache (either not ready,
or not strictly below the current `ready_timestamp_`) preserves the scan
invariant. -/
theorem scanInv_append_no_arm {stream : Nat → Timestamp × Bool}
    {kept : List (List Nat)} {idx : Int} {rts rts0 : Timestamp} {s : List Nat}
    (hinv : ScanInv stream kept idx rts rts0)
    (hmv : minValue stream s ≠ Timestamp.done)
    (hnoarm : minValue stream s < minBound stream s →
      ¬ minValue stream s < rts) :
    ScanInv stream (kept ++ [s]) idx rts rts0 := by
  obtain ⟨hA, hB⟩ := hinv
  constructor
  · intro x hx
    rcases List.mem_append.mp hx with h | h
    · exact hA x h
    · rw [List.mem_singleton.mp h]
      exact hmv
  · by_cases hidx : idx = -1
    · rw [if_pos hidx] at hB ⊢
      obtain ⟨hrr, hnone⟩ := hB
      refine ⟨hrr, ?_⟩
      intro x hx hready
      rcases List.mem_append.mp hx with h | h
      · exact hnone x h hready
      · rw [List.mem_singleton.mp h] at hready ⊢
        rw [← hrr]
        exact hnoarm hready
    · rw [if_neg hidx] at hB ⊢
      obtain ⟨hge, hlen, hready0, heq, hminimal⟩ := hB
      refine ⟨hge, ?_⟩
      have hlen' : idx.toNat < (kept ++ [s]).length := by
        simp only [List.length_append, List.length_singleton]
        omega
      refine ⟨hlen', ?_, ?_, ?_⟩
      · rw [get_append_lt kept s idx.toNat hlen hlen']
        exact hready0
      · rw [get_append_lt kept s idx.toNat hlen hlen']
        exact heq
      · intro j hj hready
        by_cases hjk : j < kept.length
        · rw [get_append_lt kept s j hjk hj] at hready ⊢
          exact hminimal j hjk hready
        · have hj' : j = kept.length := by
            have : (kept ++ [s]).length = kept.length + 1 := by
              simp only [List.length_append, List.length_singleton]
            omega
          subst hj'
          rw [get_append_last kept s hj] at hready ⊢
          refine ⟨Timestamp.not_lt.mp (hnoarm hready), ?_⟩
          intro _
          omega

/-- Arming the cache on a ready sync set strictly below the current
`ready_timestamp_` re-establishes the scan invariant at the new index and
timestamp. -/
theorem scanInv_append_arm {stream : Nat → Timestamp × Bool}
    {kept : List (List Nat)} {idx : Int} {rts rts0 : Timestamp} {s : List Nat}
    (hinv : ScanInv stream kept idx rts rts0)
    (hmv : minValue stream s ≠ Timestamp.done)
    (hready : minValue stream s < minBound stream s)
    (harm : minValue stream s < rts) :
    ScanInv stream (kept ++ [s]) (kept.length : Int) (minValue stream s) rts0 := by
  have hA := hinv.1
  constructor
  · intro x hx
    rcases List.mem_append.mp hx with h | h
    · exact hA x h
    · rw [List.mem_singleton.mp h]
      exact hmv
  · have hne : (kept.length : Int) ≠ -1 := by omega
    rw [if_neg hne]
    simp only [Int.toNat_natCast]
    refine ⟨by omega, ?_⟩
    have hlen' : kept.length < (kept ++ [s]).length := by
      simp only [List.length_append, List.length_singleton]
      omega
    refine ⟨hlen', ?_, ?_, ?_⟩
    · rw [get_append_last kept s hlen']
      exact hready
    · rw [get_append_last kept s hlen']
    · intro j hj hreadyj
      by_cases hjk : j < kept.length
      · rw [get_append_lt kept s j hjk hj] at hreadyj ⊢
        have hlow : rts ≤ minValue stream (kept.get ⟨j, hjk⟩) :=
          scanInv_lower_bound hinv _ (List.get_mem kept j hjk) hreadyj
        have hlt : minValue stream s < minValue stream (kept.get ⟨j, hjk⟩) :=
          Timestamp.lt_of_lt_of_le harm hlow
        refine ⟨Timestamp.le_of_lt hlt, ?_⟩
        intro heq2
        rw [heq2] at hlt
        exact absurd hlt (Timestamp.lt_irrefl _)
      · have hj' : j = kept.length := by
          have : (kept ++ [s]).length = kept.length + 1 := by
            simp only [List.length_append, List.length_singleton]
          omega
        subst hj'
        rw [get_append_last kept s hj] at hreadyj ⊢
        exact ⟨Timestamp.le_refl _, fun _ => by omega⟩

theorem aliveSets_nil (stream : Nat → Timestamp × Bool) :
    aliveSets stream [] = [] := rfl

theorem aliveSets_cons_done {stream : Nat → Timestamp × Bool} {s : List Nat}
    (rest : List (List Nat)) (h : minValue stream s = Timestamp.done) :
    aliveSets stream (s :: rest) = aliveSets stream rest := by
  simp [aliveSets, h]

theorem aliveSets_cons_ne {stream : Nat → Timestamp × Bool} {s : List Nat}
    (rest : List (List Nat)) (h : minValue stream s ≠ Timestamp.done) :
    aliveSets stream (s :: rest) = s :: aliveSets stream rest := by
  simp [aliveSets, h]

/-- The main loop characterisation of the scan in `GetNodeReadiness`: from a
state satisfying the invariant, the scan succeeds, keeps exactly the sync sets
whose minimum is not `Done` (in order), and re-establishes the invariant. -/
theorem scanSets_inv (stream : Nat → Timestamp × Bool) (rts0 : Timestamp) :
    ∀ (todo kept : List (List Nat)) (idx : Int) (rts msts : Timestamp),
      ScanInv stream kept idx rts rts0 →
      ∃ idx' rts' msts',
        scanSets stream todo kept idx rts msts =
          some (kept ++ aliveSets stream todo, idx', rts', msts') ∧
        ScanInv stream (kept ++ aliveSets stream todo) idx' rts' rts0 := by
  intro todo
  induction todo with
  | nil =>
      intro kept idx rts msts hinv
      refine ⟨idx, rts, msts, ?_, ?_⟩
      · simp [scanSets, aliveSets_nil]
      · simpa [aliveSets_nil] using hinv
  | cons s rest ih =>
      intro kept idx rts msts hinv
      by_cases h1 : minValue stream s = Timestamp.done
      · rw [aliveSets_cons_done rest h1]
        simp only [scanSets, if_pos h1]
        exact ih kept idx rts _ hinv
      · rw [aliveSets_cons_ne rest h1]
        by_cases h2 : minValue stream s < minBound stream s
        · by_cases h3 : minValue stream s < rts
          · simp only [scanSets, if_neg h1, if_pos h2, if_pos h3]
            obtain ⟨idx', rts', msts', heq, hfin⟩ :=
              ih (kept ++ [s]) (kept.length : Int) (minValue stream s) _
                (scanInv_append_arm hinv h1 h2 h3)
            refine ⟨idx', rts', msts', ?_, ?_⟩
            · rw [heq, List.append_assoc, List.singleton_append]
            · rw [List.append_assoc, List.singleton_append] at hfin
              exact hfin
          · simp only [scanSets, if_neg h1, if_pos h2, if_neg h3]
            obtain ⟨idx', rts', msts', heq, hfin⟩ :=
              ih (kept ++ [s]) idx rts _
                (scanInv_append_no_arm hinv h1 (fun _ => h3))
            refine ⟨idx', rts', msts', ?_, ?_⟩
            · rw [heq, List.append_assoc, List.singleton_append]
            · rw [List.append_assoc, List.singleton_append] at hfin
              exact hfin
        · have hbe := minBound_eq_of_not_lt h2
          simp only [scanSets, if_neg h1, if_neg h2, if_pos hbe]
          obtain ⟨idx', rts', msts', heq, hfin⟩ :=
            ih (kept ++ [s]) idx rts _
              (scanInv_append_no_arm hinv h1 (fun hr => absurd hr h2))
          refine ⟨idx', rts', msts', ?_, ?_⟩
          · rw [heq, List.append_assoc, List.singleton_append]
          · rw [List.append_assoc, List.singleton_append] at hfin
            exact hfin

/-- The scan invariant holds trivially at the start of a fresh scan. -/
theorem scanInv_init (stream : Nat → Timestamp × Bool) :
    ScanInv stream [] (-1) Timestamp.done Timestamp.done := by
  refine ⟨fun s hs => absurd hs (List.not_mem_nil s), ?_⟩
  rw [if_pos rfl]
  exact ⟨rfl, fun s hs => absurd hs (List.not_mem_nil s)⟩

/-- Reduction of `getNodeReadiness` through a given scan result. -/
theorem getNodeReadiness_of_scan (stream : Nat → Timestamp × Bool)
    (st : HandlerState) (sets' : List (List Nat)) (idx' : Int)
    (rts' msts' : Timestamp) (hidx : ¬ 0 ≤ st.ready_sync_set_index)
    (hs : scanSets stream st.sync_sets [] st.ready_sync_set_index
      st.ready_timestamp Timestamp.done = some (sets', idx', rts', msts')) :
    getNodeReadiness stream st =
      (if 0 ≤ idx' then
        some (NodeReadiness.kReadyForProcess, rts', ⟨sets', idx', rts'⟩)
      else if sets' = [] then
        some (NodeReadiness.kReadyForClose, Timestamp.done, ⟨sets', idx', rts'⟩)
      else
        some (NodeReadiness.kNotReady, msts', ⟨sets', idx', rts'⟩)) := by
  unfold getNodeReadiness
  rw [if_neg hidx, hs]

/-- A ready sync set has a non-`Done` minimum value. -/
theorem ready_ne_done {stream : Nat → Timestamp × Bool} {s : List Nat}
    (h : minValue stream s < minBound stream s) :
    minValue stream s ≠ Timestamp.done :=
  Timestamp.ne_done_of_lt h

/-- A scan result with a negative index has index exactly −1 (the invariant
excludes any other negative value). -/
theorem scanInv_neg_eq_neg_one {stream : Nat → Timestamp × Bool}
    {kept : List (List Nat)} {idx : Int} {rts rts0 : Timestamp}
    (hinv : ScanInv stream kept idx rts rts0) (h : ¬ 0 ≤ idx) : idx = -1 := by
  by_contra hne
  have := hinv.2
  rw [if_neg hne] at this
  exact h this.1

/-- **C2**: whenever at least one sync set reaches readiness in a fresh scan
the verdict is `kReadyForProcess`, and the armed sync set is a ready set whose
value equals the reported timestamp and is minimal among all remaining ready
sets, with ties at equal timestamps resolved to the strictly earlier
collection index (a later set at the same timestamp never overwrites an
earlier winner). -/
theorem c2_smallest_timestamp_earliest_index (stream : Nat → Timestamp × Bool)
    (sets : List (List Nat)) (v : NodeReadiness) (t : Timestamp)
    (st' : HandlerState)
    (h : getNodeReadiness stream ⟨sets, -1, Timestamp.done⟩ = some (v, t, st')) :
    ((∃ s ∈ sets, minValue stream s < minBound stream s) →
      v = NodeReadiness.kReadyForProcess) ∧
    (v = NodeReadiness.kReadyForProcess →
      ∃ hlt : st'.ready_sync_set_index.toNat < st'.sync_sets.length,
        minValue stream (st'.sync_sets.get ⟨st'.ready_sync_set_index.toNat, hlt⟩) <
          minBound stream (st'.sync_sets.get ⟨st'.ready_sync_set_index.toNat, hlt⟩) ∧
        minValue stream (st'.sync_sets.get ⟨st'.ready_sync_set_index.toNat, hlt⟩) = t ∧
        ∀ (j : Nat) (hj : j < st'.sync_sets.length),
          minValue stream (st'.sync_sets.get ⟨j, hj⟩) <
            minBound stream (st'.sync_sets.get ⟨j, hj⟩) →
          t ≤ minValue stream (st'.sync_sets.get ⟨j, hj⟩) ∧
          (minValue stream (st'.sync_sets.get ⟨j, hj⟩) = t →
            st'.ready_sync_set_index ≤ (j : Int))) := by
  obtain ⟨idx', rts', msts', heq, hfin⟩ :=
    scanSets_inv stream Timestamp.done sets [] (-1) Timestamp.done
      Timestamp.done (scanInv_init stream)
  rw [List.nil_append] at heq hfin
  rw [getNodeReadiness_of_scan stream ⟨sets, -1, Timestamp.done⟩ _ _ _ _ (show ¬ (0:Int) ≤ -1 by decide) heq] at h
  by_cases h0 : 0 ≤ idx'
  · rw [if_pos h0] at h
    simp only [Option.some.injEq, Prod.mk.injEq] at h
    obtain ⟨hv, ht, hst⟩ := h
    subst hst
    constructor
    · intro _
      exact hv.symm
    · intro _
      have hB := hfin.2
      have hne : idx' ≠ -1 := by omega
      rw [if_neg hne] at hB
      obtain ⟨-, hlt, hready, hteq, hmin⟩ := hB
      refine ⟨hlt, hready, by rw [hteq, ht], ?_⟩
      intro j hj hreadyj
      obtain ⟨h1, h2⟩ := hmin j hj hreadyj
      exact ⟨by rw [← ht]; exact h1, fun he => h2 (by rw [he, ← ht])⟩
  · have hidx1 : idx' = -1 := scanInv_neg_eq_neg_one hfin h0
    have hB := hfin.2
    rw [if_pos hidx1] at hB
    constructor
    · rintro ⟨s, hs, hready⟩
      have hmv : minValue stream s ≠ Timestamp.done := ready_ne_done hready
      have hsa : s ∈ aliveSets stream sets := by
        rw [aliveSets, List.mem_filter]
        exact ⟨hs, by simp [hmv]⟩
      exact absurd (Timestamp.lt_done_of_ne hmv) (hB.2 s hsa hready)
    · intro hv
      rw [if_neg h0] at h
      by_cases hempty : aliveSets stream sets = []
      · rw [if_pos hempty] at h
        simp only [Option.some.injEq, Prod.mk.injEq] at h
        exact absurd (hv ▸ h.1) (by decide)
      · rw [if_neg hempty] at h
        simp only [Option.some.injEq, Prod.mk.injEq] at h
        exact absurd (hv ▸ h.1) (by decide)

/-- **C3**: a fresh scan permanently removes exactly the sync sets whose
minimum stream value is the exhausted constant (later sets shift down, order
preserved); a removed set is no longer in the collection, and the verdict is
`kReadyForClose` exactly when the collection has become empty and no set is
armed. -/
theorem c3_prune_done_and_close (stream : Nat → Timestamp × Bool)
    (sets : List (List Nat)) (v : NodeReadiness) (t : Timestamp)
    (st' : HandlerState)
    (h : getNodeReadiness stream ⟨sets, -1, Timestamp.done⟩ = some (v, t, st')) :
    st'.sync_sets = aliveSets stream sets ∧
    (∀ s ∈ sets, minValue stream s = Timestamp.done → s ∉ st'.sync_sets) ∧
    (v = NodeReadiness.kReadyForClose ↔
      st'.sync_sets = [] ∧ st'.ready_sync_set_index = -1) := by
  obtain ⟨idx', rts', msts', heq, hfin⟩ :=
    scanSets_inv stream Timestamp.done sets [] (-1) Timestamp.done
      Timestamp.done (scanInv_init stream)
  rw [List.nil_append] at heq hfin
  rw [getNodeReadiness_of_scan stream ⟨sets, -1, Timestamp.done⟩ _ _ _ _ (show ¬ (0:Int) ≤ -1 by decide) heq] at h
  have hnotmem : ∀ s ∈ sets, minValue stream s = Timestamp.done →
      s ∉ aliveSets stream sets := by
    intro s _ hdone hmem
    rw [aliveSets, List.mem_filter] at hmem
    simp [hdone] at hmem
  by_cases h0 : 0 ≤ idx'
  · rw [if_pos h0] at h
    simp only [Option.some.injEq, Prod.mk.injEq] at h
    obtain ⟨hv, -, hst⟩ := h
    subst hst
    refine ⟨rfl, hnotmem, ?_⟩
    constructor
    · intro hc
      exact absurd (hv ▸ hc) (by decide)
    · rintro ⟨-, hidx⟩
      have hidx2 : idx' = -1 := hidx
      omega
  · have hidx1 : idx' = -1 := scanInv_neg_eq_neg_one hfin h0
    rw [if_neg h0] at h
    by_cases hempty : aliveSets stream sets = []
    · rw [if_pos hempty] at h
      simp only [Option.some.injEq, Prod.mk.injEq] at h
      obtain ⟨hv, -, hst⟩ := h
      subst hst
      exact ⟨rfl, hnotmem, by simp [← hv, hempty, hidx1]⟩
    · rw [if_neg hempty] at h
      simp only [Option.some.injEq, Prod.mk.injEq] at h
      obtain ⟨hv, -, hst⟩ := h
      subst hst
      refine ⟨rfl, hnotmem, ?_⟩
      constructor
      · intro hc
        exact absurd (hv ▸ hc) (by decide)
      · rintro ⟨hc, -⟩
        exact absurd hc hempty

theorem c1_ready_iff_bound_strictly_greater_witness :
    minValue wStreamA [0, 1] ≠ Timestamp.done ∧
    ((getNodeReadiness wStreamA ⟨[[0, 1]], -1, Timestamp.done⟩ =
      if minValue wStreamA [0, 1] < minBound wStreamA [0, 1] then
        some (NodeReadiness.kReadyForProcess, minValue wStreamA [0, 1],
          ⟨[[0, 1]], 0, minValue wStreamA [0, 1]⟩)
      else
        some (NodeReadiness.kNotReady, minValue wStreamA [0, 1],
          ⟨[[0, 1]], -1, Timestamp.done⟩)) ∧
    (∀ (rest kept : List (List Nat)) (idx : Int) (rts msts : Timestamp),
      minBound wStreamA [0, 1] = minValue wStreamA [0, 1] →
      scanSets wStreamA ([0, 1] :: rest) kept idx rts msts =
        scanSets wStreamA rest (kept ++ [[0, 1]]) idx rts
          (minValue wStreamA [0, 1]))) :=
  ⟨by decide, c1_ready_iff_bound_strictly_greater wStreamA [0, 1] (by decide)⟩

theorem c2_smallest_timestamp_earliest_index_witness :
    (getNodeReadiness wStreamB ⟨[[0], [1]], -1, Timestamp.done⟩ =
      some (NodeReadiness.kReadyForProcess, Timestamp.ts 5,
        ⟨[[0], [1]], 1, Timestamp.ts 5⟩)) ∧
    (((∃ s ∈ [[0], [1]], minValue wStreamB s < minBound wStreamB s) →
      NodeReadiness.kReadyForProcess = NodeReadiness.kReadyForProcess) ∧
    (NodeReadiness.kReadyForProcess = NodeReadiness.kReadyForProcess →
      ∃ hlt : (HandlerState.mk [[0], [1]] 1
          (Timestamp.ts 5)).ready_sync_set_index.toNat <
          (HandlerState.mk [[0], [1]] 1 (Timestamp.ts 5)).sync_sets.length,
        minValue wStreamB ((HandlerState.mk [[0], [1]] 1
            (Timestamp.ts 5)).sync_sets.get
            ⟨(HandlerState.mk [[0], [1]] 1
              (Timestamp.ts 5)).ready_sync_set_index.toNat, hlt⟩) <
          minBound wStreamB ((HandlerState.mk [[0], [1]] 1
            (Timestamp.ts 5)).sync_sets.get
            ⟨(HandlerState.mk [[0], [1]] 1
              (Timestamp.ts 5)).ready_sync_set_index.toNat, hlt⟩) ∧
        minValue wStreamB ((HandlerState.mk [[0], [1]] 1
            (Timestamp.ts 5)).sync_sets.get
            ⟨(HandlerState.mk [[0], [1]] 1
              (Timestamp.ts 5)).ready_sync_set_index.toNat, hlt⟩) =
          Timestamp.ts 5 ∧
        ∀ (j : Nat) (hj : j < (HandlerState.mk [[0], [1]] 1
            (Timestamp.ts 5)).sync_sets.length),
          minValue wStreamB ((HandlerState.mk [[0], [1]] 1
              (Timestamp.ts 5)).sync_sets.get ⟨j, hj⟩) <
            minBound wStreamB ((HandlerState.mk [[0], [1]] 1
              (Timestamp.ts 5)).sync_sets.get ⟨j, hj⟩) →
          Timestamp.ts 5 ≤ minValue wStreamB ((HandlerState.mk [[0], [1]] 1
              (Timestamp.ts 5)).sync_sets.get ⟨j, hj⟩) ∧
          (minValue wStreamB ((HandlerState.mk [[0], [1]] 1
              (Timestamp.ts 5)).sync_sets.get ⟨j, hj⟩) = Timestamp.ts 5 →
            (HandlerState.mk [[0], [1]] 1
              (Timestamp.ts 5)).ready_sync_set_index ≤ (j : Int)))) :=
  ⟨by decide,
   c2_smallest_timestamp_earliest_index wStreamB [[0], [1]]
     NodeReadiness.kReadyForProcess (Timestamp.ts 5)
     ⟨[[0], [1]], 1, Timestamp.ts 5⟩ (by decide)⟩

theorem c3_prune_done_and_close_witness :
    (getNodeReadiness cStream ⟨[[1], [0]], -1, Timestamp.done⟩ =
      some (NodeReadiness.kNotReady, Timestamp.ts 5, ⟨[[0]], -1, Timestamp.done⟩)) ∧
    ((HandlerState.mk [[0]] (-1) Timestamp.done).sync_sets =
      aliveSets cStream [[1], [0]] ∧
    (∀ s ∈ [[1], [0]], minValue cStream s = Timestamp.done →
      s ∉ (HandlerState.mk [[0]] (-1) Timestamp.done).sync_sets) ∧
    (NodeReadiness.kNotReady = NodeReadiness.kReadyForClose ↔
      (HandlerState.mk [[0]] (-1) Timestamp.done).sync_sets = [] ∧
      (HandlerState.mk [[0]] (-1) Timestamp.done).ready_sync_set_index = -1)) :=
  ⟨by decide,
   c3_prune_done_and_close cStream [[1], [0]] NodeReadiness.kNotReady
     (Timestamp.ts 5) ⟨[[0]], -1, Timestamp.done⟩ (by decide)⟩

/-- Once the cache is armed, the remainder of the scan keeps it armed. -/
theorem scanSets_nonneg (stream : Nat → Timestamp × Bool) :
    ∀ (todo kept : List (List Nat)) (idx : Int) (rts msts : Timestamp)
      (kept' : List (List Nat)) (idx' : Int) (rts' msts' : Timestamp),
      scanSets stream todo kept idx rts msts = some (kept', idx', rts', msts') →
      0 ≤ idx → 0 ≤ idx' := by
  intro todo
  induction todo with
  | nil =>
      intro kept idx rts msts kept' idx' rts' msts' h hge
      simp only [scanSets, Option.some.injEq, Prod.mk.injEq] at h
      omega
  | cons s rest ih =>
      intro kept idx rts msts kept' idx' rts' msts' h hge
      simp only [scanSets] at h
      split at h
      · exact ih _ _ _ _ _ _ _ _ h hge
      · split at h
        · split at h
          · exact ih _ _ _ _ _ _ _ _ h (by omega)
          · exact ih _ _ _ _ _ _ _ _ h hge
        · split at h
          · exact ih _ _ _ _ _ _ _ _ h hge
          · exact absurd h (by simp)

/-- A scan that ends disarmed started disarmed, left the cached timestamp
untouched, kept exactly the alive sync sets, and found no set that was both
ready and strictly below the cached timestamp. -/
theorem scanSets_no_arm (stream : Nat → Timestamp × Bool) :
    ∀ (todo kept : List (List Nat)) (idx : Int) (rts msts : Timestamp)
      (kept' : List (List Nat)) (idx' : Int) (rts' msts' : Timestamp),
      scanSets stream todo kept idx rts msts = some (kept', idx', rts', msts') →
      ¬ 0 ≤ idx' →
      idx' = idx ∧ rts' = rts ∧ kept' = kept ++ aliveSets stream todo ∧
        ∀ s ∈ todo, minValue stream s ≠ Timestamp.done →
          ¬(minValue stream s < minBound stream s ∧
            minValue stream s < rts) := by
  intro todo
  induction todo with
  | nil =>
      intro kept idx rts msts kept' idx' rts' msts' h _
      simp only [scanSets, Option.some.injEq, Prod.mk.injEq] at h
      obtain ⟨hk, hi, hr, -⟩ := h
      refine ⟨hi.symm, hr.symm, ?_, fun s hs => absurd hs (List.not_mem_nil s)⟩
      rw [← hk, aliveSets_nil, List.append_nil]
  | cons s rest ih =>
      intro kept idx rts msts kept' idx' rts' msts' h hneg
      simp only [scanSets] at h
      by_cases h1 : minValue stream s = Timestamp.done
      · rw [if_pos h1] at h
        obtain ⟨ha, hb, hc, hd⟩ := ih _ _ _ _ _ _ _ _ h hneg
        refine ⟨ha, hb, ?_, ?_⟩
        · rw [hc, aliveSets_cons_done rest h1]
        · intro x hx hmvx
          rcases List.mem_cons.mp hx with hx | hx
          · rw [hx] at hmvx
            exact absurd h1 hmvx
          · exact hd x hx hmvx
      · rw [if_neg h1] at h
        by_cases h2 : minValue stream s < minBound stream s
        · rw [if_pos h2] at h
          by_cases h3 : minValue stream s < rts
          · rw [if_pos h3] at h
            exact absurd (scanSets_nonneg stream _ _ _ _ _ _ _ _ _ h
              (by omega)) hneg
          · rw [if_neg h3] at h
            obtain ⟨ha, hb, hc, hd⟩ := ih _ _ _ _ _ _ _ _ h hneg
            refine ⟨ha, hb, ?_, ?_⟩
            · rw [hc, aliveSets_cons_ne rest h1, List.append_assoc,
                List.singleton_append]
            · intro x hx hmvx
              rcases List.mem_cons.mp hx with hx | hx
              · rw [hx]
                rintro ⟨-, hlt⟩
                exact h3 hlt
              · exact hd x hx hmvx
        · have hbe := minBound_eq_of_not_lt h2
          rw [if_neg h2, if_pos hbe] at h
          obtain ⟨ha, hb, hc, hd⟩ := ih _ _ _ _ _ _ _ _ h hneg
          refine ⟨ha, hb, ?_, ?_⟩
          · rw [hc, aliveSets_cons_ne rest h1, List.append_assoc,
              List.singleton_append]
          · intro x hx hmvx
            rcases List.mem_cons.mp hx with hx | hx
            · rw [hx]
              rintro ⟨hlt, -⟩
              exact h2 hlt
            · exact hd x hx hmvx

/-- Re-scanning a collection of alive, non-arming sync sets reproduces the
collection and leaves the cache untouched. -/
theorem scanSets_replay (stream : Nat → Timestamp × Bool) :
    ∀ (todo kept : List (List Nat)) (idx : Int) (rts msts : Timestamp),
      (∀ s ∈ todo, minValue stream s ≠ Timestamp.done ∧
        ¬(minValue stream s < minBound stream s ∧
          minValue stream s < rts)) →
      ∃ msts', scanSets stream todo kept idx rts msts =
        some (kept ++ todo, idx, rts, msts') := by
  intro todo
  induction todo with
  | nil =>
      intro kept idx rts msts _
      exact ⟨msts, by simp [scanSets]⟩
  | cons s rest ih =>
      intro kept idx rts msts hall
      obtain ⟨hmv, hnot⟩ := hall s (List.mem_cons_self s rest)
      have hrest : ∀ x ∈ rest, minValue stream x ≠ Timestamp.done ∧
          ¬(minValue stream x < minBound stream x ∧
            minValue stream x < rts) :=
        fun x hx => hall x (List.mem_cons_of_mem s hx)
      simp only [scanSets, if_neg hmv]
      by_cases h2 : minValue stream s < minBound stream s
      · have h3 : ¬ minValue stream s < rts := fun hlt => hnot ⟨h2, hlt⟩
        rw [if_pos h2, if_neg h3]
        obtain ⟨msts', hm⟩ := ih (kept ++ [s]) idx rts (minValue stream s) hrest
        refine ⟨msts', ?_⟩
        rw [hm, List.append_assoc, List.singleton_append]
      · have hbe := minBound_eq_of_not_lt h2
        rw [if_neg h2, if_pos hbe]
        obtain ⟨msts', hm⟩ := ih (kept ++ [s]) idx rts (minValue stream s) hrest
        refine ⟨msts', ?_⟩
        rw [hm, List.append_assoc, List.singleton_append]

/-- **C4 (counterexample)**: with no intervening extraction and no change to
any stream, two successive readiness evaluations both return `kNotReady` but
report different timestamps — the first scan's last write to the out-parameter
came from a sync set it pruned, the second scan's from the surviving set — so
"the same verdict and the same timestamp on every call" fails as stated. -/
theorem c4_counterexample_not_ready_timestamp_differs :
    getNodeReadiness cStream ⟨[[0], [1]], -1, Timestamp.done⟩ =
      some (NodeReadiness.kNotReady, Timestamp.done,
        ⟨[[0]], -1, Timestamp.done⟩) ∧
    getNodeReadiness cStream ⟨[[0]], -1, Timestamp.done⟩ =
      some (NodeReadiness.kNotReady, Timestamp.ts 5,
        ⟨[[0]], -1, Timestamp.done⟩) ∧
    Timestamp.done ≠ Timestamp.ts 5 :=
  ⟨by decide, by decide, by decide⟩

/-- **C4 (amended)**: repeated readiness evaluations with unchanged streams
return the same verdict and the same resulting state on every call, and the
same timestamp whenever the verdict is `kReadyForProcess` or `kReadyForClose`
(the `kNotReady` timestamp is unspecified and may differ between calls); in
particular, when the cache is already armed the evaluator returns
`kReadyForProcess` with the cached timestamp immediately, leaving the state
untouched and performing no re-scan. -/
theorem c4_amended_idempotent_verdict :
    (∀ (stream : Nat → Timestamp × Bool) (st : HandlerState)
        (v : NodeReadiness) (t : Timestamp) (st' : HandlerState),
      getNodeReadiness stream st = some (v, t, st') →
      ∃ t', getNodeReadiness stream st' = some (v, t', st') ∧
        (v ≠ NodeReadiness.kNotReady → t' = t)) ∧
    (∀ (stream : Nat → Timestamp × Bool) (st : HandlerState),
      0 ≤ st.ready_sync_set_index →
      getNodeReadiness stream st =
        some (NodeReadiness.kReadyForProcess, st.ready_timestamp, st)) := by
  have harmed : ∀ (stream : Nat → Timestamp × Bool) (st : HandlerState),
      0 ≤ st.ready_sync_set_index →
      getNodeReadiness stream st =
        some (NodeReadiness.kReadyForProcess, st.ready_timestamp, st) := by
    intro stream st h
    unfold getNodeReadiness
    rw [if_pos h]
  refine ⟨?_, harmed⟩
  intro stream st v t st' h
  by_cases h0 : 0 ≤ st.ready_sync_set_index
  · rw [harmed stream st h0] at h
    simp only [Option.some.injEq, Prod.mk.injEq] at h
    obtain ⟨hv, ht, hst⟩ := h
    subst hst
    refine ⟨t, ?_, fun _ => rfl⟩
    rw [harmed stream st h0, hv, ht]
  · cases hs : scanSets stream st.sync_sets [] st.ready_sync_set_index
        st.ready_timestamp Timestamp.done with
    | none => exact absurd hs (scanSets_ne_none stream _ _ _ _ _)
    | some res =>
        obtain ⟨sets', idx', rts', msts'⟩ := res
        rw [getNodeReadiness_of_scan stream st sets' idx' rts' msts' h0 hs] at h
        by_cases h1 : 0 ≤ idx'
        · rw [if_pos h1] at h
          simp only [Option.some.injEq, Prod.mk.injEq] at h
          obtain ⟨hv, ht, hst⟩ := h
          subst hst
          refine ⟨t, ?_, fun _ => rfl⟩
          rw [harmed stream ⟨sets', idx', rts'⟩ h1, hv, ht]
        · rw [if_neg h1] at h
          obtain ⟨hieq, hreq, hkeq, hprop⟩ :=
            scanSets_no_arm stream _ _ _ _ _ _ _ _ _ hs h1
          rw [List.nil_append] at hkeq
          by_cases h2 : sets' = []
          · rw [if_pos h2] at h
            simp only [Option.some.injEq, Prod.mk.injEq] at h
            obtain ⟨hv, ht, hst⟩ := h
            subst hst
            refine ⟨Timestamp.done, ?_, fun _ => ht⟩
            have hs2 : scanSets stream sets' [] idx' rts' Timestamp.done =
                some (sets', idx', rts', Timestamp.done) := by
              rw [h2]
              simp [scanSets]
            rw [getNodeReadiness_of_scan stream ⟨sets', idx', rts'⟩ sets' idx'
              rts' Timestamp.done h1 hs2, if_neg h1, if_pos h2, hv]
          · rw [if_neg h2] at h
            simp only [Option.some.injEq, Prod.mk.injEq] at h
            obtain ⟨hv, ht, hst⟩ := h
            subst hst
            have hpre : ∀ s ∈ sets', minValue stream s ≠ Timestamp.done ∧
                ¬(minValue stream s < minBound stream s ∧
                  minValue stream s < rts') := by
              intro s hsm
              rw [hkeq, aliveSets, List.mem_filter] at hsm
              obtain ⟨hmem, hpred⟩ := hsm
              have hmv : minValue stream s ≠ Timestamp.done := by
                simpa using hpred
              refine ⟨hmv, ?_⟩
              rw [hreq]
              exact hprop s hmem hmv
            obtain ⟨msts'', hm⟩ :=
              scanSets_replay stream sets' [] idx' rts' Timestamp.done hpre
            rw [List.nil_append] at hm
            refine ⟨msts'', ?_, ?_⟩
            · rw [getNodeReadiness_of_scan stream ⟨sets', idx', rts'⟩ sets'
                idx' rts' msts'' h1 hm, if_neg h1, if_neg h2, hv]
            · intro hne
              exact absurd hv.symm hne

theorem c4_amended_idempotent_verdict_witness :
    (getNodeReadiness cStream ⟨[[0], [1]], -1, Timestamp.done⟩ =
      some (NodeReadiness.kNotReady, Timestamp.done,
        ⟨[[0]], -1, Timestamp.done⟩)) ∧
    (∃ t', getNodeReadiness cStream ⟨[[0]], -1, Timestamp.done⟩ =
      some (NodeReadiness.kNotReady, t', ⟨[[0]], -1, Timestamp.done⟩) ∧
      (NodeReadiness.kNotReady ≠ NodeReadiness.kNotReady →
        t' = Timestamp.done)) ∧
    0 ≤ (HandlerState.mk [[0]] 0 (Timestamp.ts 3)).ready_sync_set_index ∧
    getNodeReadiness cStream ⟨[[0]], 0, Timestamp.ts 3⟩ =
      some (NodeReadiness.kReadyForProcess,
        (HandlerState.mk [[0]] 0 (Timestamp.ts 3)).ready_timestamp,
        ⟨[[0]], 0, Timestamp.ts 3⟩) :=
  ⟨by decide,
   c4_amended_idempotent_verdict.1 cStream ⟨[[0], [1]], -1, Timestamp.done⟩
     NodeReadiness.kNotReady Timestamp.done ⟨[[0]], -1, Timestamp.done⟩
     (by decide),
   by decide,
   c4_amended_idempotent_verdict.2 cStream ⟨[[0]], 0, Timestamp.ts 3⟩
     (by decide)⟩

/-- When no pop on the sync set drops packets, the fill loop succeeds and
writes exactly the popped packet and done-flag into each member stream's slot,
leaving every other slot untouched. -/
theorem fillLoop_ok (pop : Nat → Timestamp → Int × Nat × Bool) (t : Timestamp) :
    ∀ (l : List Nat) (out : Nat → Option (Int × Bool)),
      (∀ id ∈ l, (pop id t).2.1 = 0) →
      ∃ out', fillLoop pop t l out = some out' ∧
        ∀ j, out' j =
          if j ∈ l then some ((pop j t).1, (pop j t).2.2) else out j := by
  intro l
  induction l with
  | nil =>
      intro out _
      refine ⟨out, rfl, ?_⟩
      intro j
      rw [if_neg (List.not_mem_nil j)]
  | cons id rest ih =>
      intro out hall
      have hid : (pop id t).2.1 = 0 := hall id (List.mem_cons_self id rest)
      obtain ⟨out', hfl, hchar⟩ :=
        ih (fun j => if j = id then some ((pop id t).1, (pop id t).2.2)
          else out j) (fun x hx => hall x (List.mem_cons_of_mem id hx))
      refine ⟨out', ?_, ?_⟩
      · simp only [fillLoop, hid]
        simpa using hfl
      · intro j
        rw [hchar j]
        by_cases hjr : j ∈ rest
        · rw [if_pos hjr, if_pos (List.mem_cons_of_mem id hjr)]
        · rw [if_neg hjr]
          by_cases hji : j = id
          · subst hji
            rw [if_pos rfl, if_pos (List.mem_cons_self j rest)]
          · rw [if_neg hji, if_neg (by
              intro hc
              rcases List.mem_cons.mp hc with hc | hc
              · exact hji hc
              · exact hjr hc)]

/-- The fill loop aborts exactly when some member stream's pop reports a
non-zero dropped-packet count. -/
theorem fillLoop_none_iff (pop : Nat → Timestamp → Int × Nat × Bool)
    (t : Timestamp) :
    ∀ (l : List Nat) (out : Nat → Option (Int × Bool)),
      (fillLoop pop t l out = none ↔ ∃ id ∈ l, (pop id t).2.1 ≠ 0) := by
  intro l
  induction l with
  | nil =>
      intro out
      simp [fillLoop]
  | cons id rest ih =>
      intro out
      by_cases hid : (pop id t).2.1 = 0
      · simp only [fillLoop, hid]
        rw [if_neg (by simp)]
        rw [ih]
        constructor
        · rintro ⟨x, hx, hd⟩
          exact ⟨x, List.mem_cons_of_mem id hx, hd⟩
        · rintro ⟨x, hx, hd⟩
          rcases List.mem_cons.mp hx with hx | hx
          · rw [hx] at hd
            exact absurd hid hd
          · exact ⟨x, hx, hd⟩
      · simp only [fillLoop]
        rw [if_pos (by simpa using hid)]
        simp only [true_iff]
        exact ⟨id, List.mem_cons_self id rest, hid⟩

/-- Reduction of `FillInputSet` past its precondition checks. -/
theorem fillInputSet_checks_pass (pop : Nat → Timestamp → Int × Nat × Bool)
    (t : Timestamp) (st : HandlerState) (inp : Nat → Option (Int × Bool))
    (ss : List Nat) (h1 : t ≠ Timestamp.done)
    (h2 : 0 ≤ st.ready_sync_set_index) (h3 : t = st.ready_timestamp)
    (hss : st.sync_sets[st.ready_sync_set_index.toNat]? = some ss) :
    fillInputSet pop t st inp =
      (match fillLoop pop t ss inp with
      | none => none
      | some out => some (out, ⟨st.sync_sets, -1, Timestamp.done⟩)) := by
  unfold fillInputSet
  rw [if_neg h1, if_neg (not_not_intro h2), if_neg (not_not_intro h3), hss]

/-- **C5**: an extraction at the armed timestamp pops exactly one packet (with
its exhausted flag) from each member stream of the armed sync set into that
stream's slot of the output set, leaves the slot of every stream outside the
armed set untouched, and disarms the cache (index −1, timestamp `Done`), so
the next readiness evaluation performs a fresh scan. -/
theorem c5_extract_only_armed_set_then_disarm
    (pop : Nat → Timestamp → Int × Nat × Bool) (t : Timestamp)
    (st : HandlerState) (inp : Nat → Option (Int × Bool)) (ss : List Nat)
    (hidx : 0 ≤ st.ready_sync_set_index)
    (hss : st.sync_sets[st.ready_sync_set_index.toNat]? = some ss)
    (ht : t = st.ready_timestamp) (htd : t ≠ Timestamp.done)
    (hdrop : ∀ id ∈ ss, (pop id t).2.1 = 0) :
    ∃ out, fillInputSet pop t st inp =
        some (out, ⟨st.sync_sets, -1, Timestamp.done⟩) ∧
      (∀ id ∈ ss, out id = some ((pop id t).1, (pop id t).2.2)) ∧
      (∀ id, id ∉ ss → out id = inp id) := by
  obtain ⟨out', hfl, hchar⟩ := fillLoop_ok pop t ss inp hdrop
  refine ⟨out', ?_, ?_, ?_⟩
  · rw [fillInputSet_checks_pass pop t st inp ss htd hidx ht hss, hfl]
  · intro id hid
    rw [hchar id, if_pos hid]
  · intro id hid
    rw [hchar id, if_neg hid]

theorem c5_extract_only_armed_set_then_disarm_witness :
    (0 ≤ (HandlerState.mk [[0, 1], [2]] 0 (Timestamp.ts 5)).ready_sync_set_index ∧
      (HandlerState.mk [[0, 1], [2]] 0
        (Timestamp.ts 5)).sync_sets[(HandlerState.mk [[0, 1], [2]] 0
          (Timestamp.ts 5)).ready_sync_set_index.toNat]? = some [0, 1] ∧
      Timestamp.ts 5 =
        (HandlerState.mk [[0, 1], [2]] 0 (Timestamp.ts 5)).ready_timestamp ∧
      Timestamp.ts 5 ≠ Timestamp.done ∧
      (∀ id ∈ [0, 1], (popOk id (Timestamp.ts 5)).2.1 = 0)) ∧
    (∃ out, fillInputSet popOk (Timestamp.ts 5)
        ⟨[[0, 1], [2]], 0, Timestamp.ts 5⟩ emptyInput =
        some (out, ⟨[[0, 1], [2]], -1, Timestamp.done⟩) ∧
      (∀ id ∈ [0, 1], out id = some ((popOk id (Timestamp.ts 5)).1,
        (popOk id (Timestamp.ts 5)).2.2)) ∧
      (∀ id, id ∉ [0, 1] → out id = emptyInput id)) :=
  ⟨⟨by decide, by decide, by decide, by decide, by decide⟩,
   c5_extract_only_armed_set_then_disarm popOk (Timestamp.ts 5)
     ⟨[[0, 1], [2]], 0, Timestamp.ts 5⟩ emptyInput [0, 1]
     (by decide) (by decide) (by decide) (by decide) (by decide)⟩

/-- **C6**: under the cache-coherence well-formedness of the state (an armed
index is in bounds and carries a non-`Done` armed timestamp), extraction fails
fatally exactly when no sync set is armed, or the supplied timestamp differs
from the armed timestamp, or popping some member stream of the armed set
reports a non-zero dropped-packet count; with none of these, it completes. -/
theorem c6_extract_fatal_iff (pop : Nat → Timestamp → Int × Nat × Bool)
    (t : Timestamp) (st : HandlerState) (inp : Nat → Option (Int × Bool))
    (hwf : 0 ≤ st.ready_sync_set_index →
      st.ready_sync_set_index.toNat < st.sync_sets.length ∧
      st.ready_timestamp ≠ Timestamp.done) :
    (fillInputSet pop t st inp = none ↔
      (st.ready_sync_set_index < 0 ∨ t ≠ st.ready_timestamp ∨
        ∃ id ∈ st.sync_sets.getD st.ready_sync_set_index.toNat [],
          (pop id t).2.1 ≠ 0)) := by
  by_cases hA : 0 ≤ st.ready_sync_set_index
  · obtain ⟨hlen, hrd⟩ := hwf hA
    have hgetD : st.sync_sets.getD st.ready_sync_set_index.toNat [] =
        st.sync_sets[st.ready_sync_set_index.toNat] :=
      List.getD_eq_getElem st.sync_sets [] hlen
    have hget2 : st.sync_sets[st.ready_sync_set_index.toNat]? =
        some st.sync_sets[st.ready_sync_set_index.toNat] :=
      List.getElem?_eq_getElem hlen
    by_cases hB : t = st.ready_timestamp
    · have htd : t ≠ Timestamp.done := by
        rw [hB]
        exact hrd
      rw [fillInputSet_checks_pass pop t st inp _ htd hA hB hget2]
      constructor
      · intro hnone
        refine Or.inr (Or.inr ?_)
        rw [hgetD]
        cases hfl : fillLoop pop t
            st.sync_sets[st.ready_sync_set_index.toNat] inp with
        | none => exact (fillLoop_none_iff pop t _ inp).mp hfl
        | some out =>
            rw [hfl] at hnone
            exact absurd hnone (by simp)
      · rintro (hc | hc | hc)
        · omega
        · exact absurd hB hc
        · rw [hgetD] at hc
          rw [(fillLoop_none_iff pop t _ inp).mpr hc]
    · constructor
      · intro _
        exact Or.inr (Or.inl hB)
      · intro _
        unfold fillInputSet
        by_cases htd : t = Timestamp.done
        · rw [if_pos htd]
        · rw [if_neg htd, if_neg (not_not_intro hA), if_pos hB]
  · constructor
    · intro _
      exact Or.inl (by omega)
    · intro _
      unfold fillInputSet
      by_cases htd : t = Timestamp.done
      · rw [if_pos htd]
      · rw [if_neg htd, if_pos hA]

theorem c6_extract_fatal_iff_witness :
    ((0 ≤ (HandlerState.mk [[0, 1], [2]] 0 (Timestamp.ts 5)).ready_sync_set_index →
      (HandlerState.mk [[0, 1], [2]] 0
          (Timestamp.ts 5)).ready_sync_set_index.toNat <
        (HandlerState.mk [[0, 1], [2]] 0 (Timestamp.ts 5)).sync_sets.length ∧
      (HandlerState.mk [[0, 1], [2]] 0 (Timestamp.ts 5)).ready_timestamp ≠
        Timestamp.done) ∧
    (fillInputSet popBad (Timestamp.ts 5) ⟨[[0, 1], [2]], 0, Timestamp.ts 5⟩
        emptyInput = none ↔
      ((HandlerState.mk [[0, 1], [2]] 0
          (Timestamp.ts 5)).ready_sync_set_index < 0 ∨
        Timestamp.ts 5 ≠
          (HandlerState.mk [[0, 1], [2]] 0 (Timestamp.ts 5)).ready_timestamp ∨
        ∃ id ∈ (HandlerState.mk [[0, 1], [2]] 0
            (Timestamp.ts 5)).sync_sets.getD
            (HandlerState.mk [[0, 1], [2]] 0
              (Timestamp.ts 5)).ready_sync_set_index.toNat [],
          (popBad id (Timestamp.ts 5)).2.1 ≠ 0))) ∧
    fillInputSet popBad (Timestamp.ts 5) ⟨[[0, 1], [2]], 0, Timestamp.ts 5⟩
      emptyInput = none :=
  ⟨⟨fun _ => ⟨by decide, by decide⟩,
    c6_extract_fatal_iff popBad (Timestamp.ts 5)
      ⟨[[0, 1], [2]], 0, Timestamp.ts 5⟩ emptyInput
      (fun _ => ⟨by decide, by decide⟩)⟩,
   rfl⟩

/-- Characterisation of a successful group build: all references resolve, the
resolved ids are appended in order to both the group and `used_ids`, and
distinctness of `used_ids` is preserved. -/
theorem buildGroup_ok {Ref : Type} (resolve : Ref → Option Nat) :
    ∀ (refs : List Ref) (grp used grp' used' : List Nat),
      buildGroup resolve refs grp used = Except.ok (grp', used') →
      grp' = grp ++ refs.filterMap resolve ∧
      used' = used ++ refs.filterMap resolve ∧
      (∀ r ∈ refs, (resolve r).isSome) ∧
      (used.Nodup → used'.Nodup) := by
  intro refs
  induction refs with
  | nil =>
      intro grp used grp' used' h
      simp only [buildGroup, Except.ok.injEq, Prod.mk.injEq] at h
      obtain ⟨h1, h2⟩ := h
      simp [← h1, ← h2]
  | cons r rest ih =>
      intro grp used grp' used' h
      simp only [buildGroup] at h
      cases hr : resolve r with
      | none =>
          simp only [hr] at h
          exact absurd h (by simp)
      | some id =>
          simp only [hr] at h
          by_cases hmem : id ∈ used
          · rw [if_pos hmem] at h
            exact absurd h (by simp)
          · rw [if_neg hmem] at h
            obtain ⟨h1, h2, h3, h4⟩ := ih _ _ _ _ h
            rw [List.filterMap_cons_some hr]
            refine ⟨?_, ?_, ?_, ?_⟩
            · rw [h1, List.append_assoc, List.singleton_append]
            · rw [h2, List.append_assoc, List.singleton_append]
            · intro x hx
              rcases List.mem_cons.mp hx with hx | hx
              · rw [hx, hr]
                rfl
              · exact h3 x hx
            · intro hnd
              exact h4 (by simp [List.nodup_append, hnd, hmem])

/-- A group whose references all resolve to fresh stream ids builds
successfully. -/
theorem buildGroup_ok_of {Ref : Type} (resolve : Ref → Option Nat) :
    ∀ (refs : List Ref) (grp used : List Nat),
      (∀ r ∈ refs, (resolve r).isSome) →
      (used ++ refs.filterMap resolve).Nodup →
      buildGroup resolve refs grp used =
        Except.ok (grp ++ refs.filterMap resolve,
          used ++ refs.filterMap resolve) := by
  intro refs
  induction refs with
  | nil =>
      intro grp used _ _
      simp [buildGroup]
  | cons r rest ih =>
      intro grp used hall hnd
      obtain ⟨id, hid⟩ := Option.isSome_iff_exists.mp
        (hall r (List.mem_cons_self r rest))
      rw [List.filterMap_cons_some hid] at hnd ⊢
      have hmem : id ∉ used := by
        rw [List.nodup_append] at hnd
        intro hc
        exact hnd.2.2 hc (List.mem_cons_self id _)
      simp only [buildGroup, hid]
      rw [if_neg hmem]
      have hnd' : ((used ++ [id]) ++ rest.filterMap resolve).Nodup := by
        rw [List.append_assoc, List.singleton_append]
        exact hnd
      rw [ih (grp ++ [id]) (used ++ [id])
        (fun x hx => hall x (List.mem_cons_of_mem r hx)) hnd']
      rw [List.append_assoc, List.singleton_append, List.append_assoc,
        List.singleton_append]

/-- Characterisation of a successful sync-set build: every configured group is
non-empty with all references resolved, the built sets are the per-group
resolutions in order, and `used_ids` collects their ids, staying distinct. -/
theorem buildSyncSets_ok {Ref : Type} (resolve : Ref → Option Nat) :
    ∀ (config : List (List Ref)) (acc : List (List Nat)) (used : List Nat)
      (sets : List (List Nat)) (used' : List Nat),
      buildSyncSets resolve config acc used = Except.ok (sets, used') →
      sets = acc ++ config.map (fun g => g.filterMap resolve) ∧
      used' = used ++ (config.map (fun g => g.filterMap resolve)).flatten ∧
      (∀ g ∈ config, g.isEmpty = false ∧ ∀ r ∈ g, (resolve r).isSome) ∧
      (used.Nodup → used'.Nodup) := by
  intro config
  induction config with
  | nil =>
      intro acc used sets used' h
      simp only [buildSyncSets, Except.ok.injEq, Prod.mk.injEq] at h
      obtain ⟨h1, h2⟩ := h
      simp [← h1, ← h2]
  | cons g rest ih =>
      intro acc used sets used' h
      simp only [buildSyncSets] at h
      by_cases hemp : g.isEmpty
      · rw [if_pos hemp] at h
        exact absurd h (by simp)
      · rw [if_neg hemp] at h
        cases hbg : buildGroup resolve g [] used with
        | error e =>
            simp only [hbg] at h
            exact absurd h (by simp)
        | ok p =>
            obtain ⟨grp, used1⟩ := p
            simp only [hbg] at h
            obtain ⟨hg1, hg2, hg3, hg4⟩ :=
              buildGroup_ok resolve g [] used grp used1 hbg
            rw [List.nil_append] at hg1
            obtain ⟨h1, h2, h3, h4⟩ := ih _ _ _ _ h
            refine ⟨?_, ?_, ?_, ?_⟩
            · rw [h1, hg1, List.map_cons, List.append_assoc,
                List.singleton_append]
            · rw [h2, hg2, List.map_cons, List.flatten_cons, List.append_assoc]
            · intro x hx
              rcases List.mem_cons.mp hx with hx | hx
              · rw [hx]
                exact ⟨by simpa using hemp, hg3⟩
              · exact h3 x hx
            · intro hnd
              exact h4 (hg4 hnd)

/-- A configuration of non-empty groups whose references all resolve to
pairwise-distinct stream ids builds successfully. -/
theorem buildSyncSets_ok_of {Ref : Type} (resolve : Ref → Option Nat) :
    ∀ (config : List (List Ref)) (acc : List (List Nat)) (used : List Nat),
      (∀ g ∈ config, g.isEmpty = false ∧ ∀ r ∈ g, (resolve r).isSome) →
      (used ++ (config.map (fun g => g.filterMap resolve)).flatten).Nodup →
      buildSyncSets resolve config acc used =
        Except.ok (acc ++ config.map (fun g => g.filterMap resolve),
          used ++ (config.map (fun g => g.filterMap resolve)).flatten) := by
  intro config
  induction config with
  | nil =>
      intro acc used _ _
      simp [buildSyncSets]
  | cons g rest ih =>
      intro acc used hall hnd
      obtain ⟨hemp, hres⟩ := hall g (List.mem_cons_self g rest)
      rw [List.map_cons, List.flatten_cons] at hnd
      have hnd1 : (used ++ g.filterMap resolve).Nodup := by
        refine List.Nodup.sublist (List.sublist_append_left _
          ((rest.map (fun g => g.filterMap resolve)).flatten)) ?_
        rw [List.append_assoc]
        exact hnd
      simp only [buildSyncSets]
      rw [if_neg (by simp [hemp])]
      simp only [buildGroup_ok_of resolve g [] used hres hnd1]
      rw [List.nil_append]
      rw [ih (acc ++ [g.filterMap resolve]) (used ++ g.filterMap resolve)
        (fun x hx => hall x (List.mem_cons_of_mem g hx))
        (by rw [List.append_assoc]; exact hnd)]
      rw [List.map_cons, List.flatten_cons, List.append_assoc,
        List.singleton_append, List.append_assoc]

/-- **C7**: for every configuration the group builder accepts, the resulting
sync sets partition the node's stream ids exactly — their concatenation has no
duplicates and contains precisely the ids `0, …, numStreams − 1` — and every
resulting sync set (including the implicit trailing set, appended only when
non-empty) is non-empty. -/
theorem c7_partition_invariant {Ref : Type} (resolve : Ref → Option Nat)
    (numStreams : Nat) (config : List (List Ref)) (st : HandlerState)
    (hres : ∀ (r : Ref) (id : Nat), resolve r = some id → id < numStreams)
    (hok : prepareForRun resolve numStreams config = Except.ok st) :
    st.sync_sets.flatten.Nodup ∧
    (∀ id, id ∈ st.sync_sets.flatten ↔ id < numStreams) ∧
    (∀ s ∈ st.sync_sets, s ≠ []) := by
  unfold prepareForRun at hok
  cases hbs : buildSyncSets resolve config [] [] with
  | error e =>
      simp only [hbs] at hok
      exact absurd hok (by simp)
  | ok p =>
      obtain ⟨sets, used⟩ := p
      simp only [hbs, Except.ok.injEq] at hok
      obtain ⟨h1, h2, h3, h4⟩ := buildSyncSets_ok resolve config [] [] sets used hbs
      rw [List.nil_append] at h1 h2
      have hund : used.Nodup := h4 List.nodup_nil
      have hflat : sets.flatten = used := by
        rw [h1, ← h2]
      have hultn : ∀ id ∈ used, id < numStreams := by
        intro id hid
        rw [h2, List.mem_flatten] at hid
        obtain ⟨l, hl, hidl⟩ := hid
        rw [List.mem_map] at hl
        obtain ⟨gg, -, rfl⟩ := hl
        rw [List.mem_filterMap] at hidl
        obtain ⟨r, -, hres2⟩ := hidl
        exact hres r id hres2
      have hsne : ∀ s ∈ sets, s ≠ [] := by
        intro s hs
        rw [h1, List.mem_map] at hs
        obtain ⟨g, hg, rfl⟩ := hs
        obtain ⟨hgne, hgres⟩ := h3 g hg
        cases g with
        | nil => exact absurd hgne (by simp)
        | cons r grest =>
            obtain ⟨id, hid⟩ := Option.isSome_iff_exists.mp
              (hgres r (List.mem_cons_self r grest))
            rw [List.filterMap_cons_some hid]
            exact List.cons_ne_nil id _
      subst hok
      by_cases hrem : (List.range numStreams).filter
          (fun id => id ∉ used) = []
      · rw [if_pos hrem]
        have hmem : ∀ id, id ∈ used ↔ id < numStreams := by
          intro id
          refine ⟨hultn id, ?_⟩
          intro hlt
          rw [List.filter_eq_nil_iff] at hrem
          have := hrem id (List.mem_range.mpr hlt)
          simpa using this
        exact ⟨by rw [hflat]; exact hund,
          fun id => by rw [hflat]; exact hmem id, hsne⟩
      · rw [if_neg hrem]
        have hremsub : ∀ id ∈ (List.range numStreams).filter
            (fun id => id ∉ used), id < numStreams ∧ id ∉ used := by
          intro id hid
          rw [List.mem_filter] at hid
          exact ⟨List.mem_range.mp hid.1, by simpa using hid.2⟩
        have hflat2 : (sets ++ [(List.range numStreams).filter
            (fun id => id ∉ used)]).flatten = used ++
            (List.range numStreams).filter (fun id => id ∉ used) := by
          rw [← hflat]
          simp
        refine ⟨?_, ?_, ?_⟩
        · rw [hflat2, List.nodup_append]
          refine ⟨hund, (List.nodup_range numStreams).filter _, ?_⟩
          intro a ha hc
          exact (hremsub a hc).2 ha
        · intro id
          rw [hflat2, List.mem_append]
          constructor
          · rintro (h | h)
            · exact hultn id h
            · exact (hremsub id h).1
          · intro hlt
            by_cases hu : id ∈ used
            · exact Or.inl hu
            · refine Or.inr ?_
              rw [List.mem_filter]
              exact ⟨List.mem_range.mpr hlt, by simpa using hu⟩
        · intro s hs
          rcases List.mem_append.mp hs with hs | hs
          · exact hsne s hs
          · rw [List.mem_singleton.mp hs]
            exact hrem

/-- **C8 (amended)**: group building succeeds exactly when the configuration
has no empty explicit group, no unresolvable tag/index reference, and no
stream id claimed more than once across all references (whether by one group
or by several); the error value names the offending reference where one
exists, and success leaves the readiness cache disarmed. -/
theorem c8_amended_build_fails_iff {Ref : Type} (resolve : Ref → Option Nat)
    (numStreams : Nat) (config : List (List Ref)) :
    ((∃ st, prepareForRun resolve numStreams config = Except.ok st) ↔
      hasEmptyGroup config = false ∧
      hasUnresolvedRef resolve config = false ∧
      (config.flatten.filterMap resolve).Nodup) ∧
    (∀ st, prepareForRun resolve numStreams config = Except.ok st →
      st.ready_sync_set_index = -1 ∧ st.ready_timestamp = Timestamp.done) := by
  have hfm : (config.map (fun g => g.filterMap resolve)).flatten =
      config.flatten.filterMap resolve :=
    (List.filterMap_flatten resolve config).symm
  constructor
  · constructor
    · rintro ⟨st, hok⟩
      unfold prepareForRun at hok
      cases hbs : buildSyncSets resolve config [] [] with
      | error e =>
          simp only [hbs] at hok
          exact absurd hok (by simp)
      | ok p =>
          obtain ⟨sets, used⟩ := p
          obtain ⟨-, h2, h3, h4⟩ :=
            buildSyncSets_ok resolve config [] [] sets used hbs
          rw [List.nil_append, hfm] at h2
          refine ⟨?_, ?_, ?_⟩
          · rw [hasEmptyGroup, List.any_eq_false]
            intro g hg
            simp [(h3 g hg).1]
          · rw [hasUnresolvedRef, List.any_eq_false]
            intro g hg
            rw [Bool.not_eq_true, List.any_eq_false]
            intro r hr
            have := (h3 g hg).2 r hr
            simp [Option.isNone_eq_false_iff, Option.isSome_iff_ne_none.mp this]
          · rw [← h2]
            exact h4 List.nodup_nil
    · rintro ⟨hemp, hunres, hnd⟩
      have hemp' : ∀ g ∈ config, g.isEmpty = false := by
        rw [hasEmptyGroup, List.any_eq_false] at hemp
        intro g hg
        simpa using hemp g hg
      have hres' : ∀ g ∈ config, ∀ r ∈ g, (resolve r).isSome := by
        rw [hasUnresolvedRef, List.any_eq_false] at hunres
        intro g hg r hr
        have h1 := hunres g hg
        rw [Bool.not_eq_true, List.any_eq_false] at h1
        have h2 := h1 r hr
        simp only [Bool.not_eq_true, Option.isNone_eq_false_iff] at h2
        exact h2
      have hb := buildSyncSets_ok_of resolve config [] []
        (fun g hg => ⟨hemp' g hg, hres' g hg⟩)
        (by rw [List.nil_append, hfm]; exact hnd)
      exact ⟨_, by
        unfold prepareForRun
        simp only [hb]
        rfl⟩
  · intro st hok
    unfold prepareForRun at hok
    cases hbs : buildSyncSets resolve config [] [] with
    | error e =>
        simp only [hbs] at hok
        exact absurd hok (by simp)
    | ok p =>
        obtain ⟨sets, used⟩ := p
        simp only [hbs, Except.ok.injEq] at hok
        rw [← hok]
        exact ⟨rfl, rfl⟩

theorem c7_partition_invariant_witness :
    (∀ (r id : Nat), resolveId r = some id → id < 5) ∧
    prepareForRun resolveId 5 [[0], [2]] =
      Except.ok ⟨[[0], [2], [1, 3, 4]], -1, Timestamp.done⟩ ∧
    ((HandlerState.mk [[0], [2], [1, 3, 4]] (-1)
        Timestamp.done).sync_sets.flatten.Nodup ∧
      (∀ id, id ∈ (HandlerState.mk [[0], [2], [1, 3, 4]] (-1)
        Timestamp.done).sync_sets.flatten ↔ id < 5) ∧
      (∀ s ∈ (HandlerState.mk [[0], [2], [1, 3, 4]] (-1)
        Timestamp.done).sync_sets, s ≠ [])) := by
  have hres : ∀ (r id : Nat), resolveId r = some id → id < 5 := by
    intro r id h
    simp only [resolveId] at h
    split at h
    · rename_i hr
      cases h
      omega
    · exact absurd h (by simp)
  exact ⟨hres, rfl, c7_partition_invariant resolveId 5 [[0], [2]]
    ⟨[[0], [2], [1, 3, 4]], -1, Timestamp.done⟩ hres rfl⟩

/-- **C8 (counterexample)**: a configuration whose single group names the same
stream twice is rejected by the builder (duplicate-stream check), yet it has
no empty group, no unresolvable reference, and no stream claimed by more than
one group — so "fails exactly when" the three listed defects occur is false as
stated. -/
theorem c8_counterexample_same_group_duplicate :
    prepareForRun resolveId 3 [[0, 0]] =
      Except.error (PrepareError.duplicateStream 0) ∧
    hasEmptyGroup ([[0, 0]] : List (List Nat)) = false ∧
    hasUnresolvedRef resolveId [[0, 0]] = false ∧
    streamInMoreThanOneGroup resolveId [[0, 0]] = false :=
  ⟨rfl, rfl, rfl, rfl⟩

theorem c8_amended_build_fails_iff_witness :
    prepareForRun resolveId 3 [[0], [2]] =
      Except.ok ⟨[[0], [2], [1]], -1, Timestamp.done⟩ ∧
    (HandlerState.mk [[0], [2], [1]] (-1)
      Timestamp.done).ready_sync_set_index = -1 ∧
    (HandlerState.mk [[0], [2], [1]] (-1)
      Timestamp.done).ready_timestamp = Timestamp.done :=
  ⟨rfl, (c8_amended_build_fails_iff resolveId 3 [[0], [2]]).2
    ⟨[[0], [2], [1]], -1, Timestamp.done⟩ rfl⟩

/-- **C9**: the cache-coherence invariant — the −1 index sentinel holds
exactly when the ready timestamp is the `Done` sentinel, and an armed index is
a valid in-bounds position into `sync_sets_` — is established by
`prepareForRun` and preserved by `getNodeReadiness` and by a successful
`fillInputSet`; in particular the unchecked indexing
`sync_sets_[ready_sync_set_index_]` in `FillInputSet` is in bounds whenever
the cache is armed. -/
theorem c9_cache_coherence :
    (∀ (Ref : Type) (resolve : Ref → Option Nat) (numStreams : Nat)
        (config : List (List Ref)) (st : HandlerState),
      prepareForRun resolve numStreams config = Except.ok st → CacheInv st) ∧
    (∀ (stream : Nat → Timestamp × Bool) (st : HandlerState)
        (v : NodeReadiness) (t : Timestamp) (st' : HandlerState),
      CacheInv st → getNodeReadiness stream st = some (v, t, st') →
      CacheInv st') ∧
    (∀ (pop : Nat → Timestamp → Int × Nat × Bool) (t : Timestamp)
        (st : HandlerState) (inp : Nat → Option (Int × Bool))
        (res : (Nat → Option (Int × Bool)) × HandlerState),
      fillInputSet pop t st inp = some res → CacheInv res.2) ∧
    (∀ (st : HandlerState), CacheInv st → 0 ≤ st.ready_sync_set_index →
      ∃ s, st.sync_sets[st.ready_sync_set_index.toNat]? = some s) := by
  have hdisarmed : ∀ (sets : List (List Nat)),
      CacheInv ⟨sets, -1, Timestamp.done⟩ :=
    fun sets => ⟨⟨fun _ => rfl, fun _ => rfl⟩, fun hc => absurd rfl hc⟩
  refine ⟨?_, ?_, ?_, ?_⟩
  · intro Ref resolve numStreams config st hok
    unfold prepareForRun at hok
    cases hbs : buildSyncSets resolve config [] [] with
    | error e =>
        simp only [hbs] at hok
        exact absurd hok (by simp)
    | ok p =>
        obtain ⟨sets, used⟩ := p
        simp only [hbs, Except.ok.injEq] at hok
        rw [← hok]
        exact hdisarmed _
  · intro stream st v t st' hci heq
    by_cases h0 : 0 ≤ st.ready_sync_set_index
    · unfold getNodeReadiness at heq
      rw [if_pos h0] at heq
      simp only [Option.some.injEq, Prod.mk.injEq] at heq
      rw [← heq.2.2]
      exact hci
    · have hm1 : st.ready_sync_set_index = -1 := by
        by_contra hne
        exact h0 (hci.2 hne).1
      have hrd : st.ready_timestamp = Timestamp.done := hci.1.mp hm1
      obtain ⟨idx', rts', msts', hscan, hfin⟩ :=
        scanSets_inv stream Timestamp.done st.sync_sets [] (-1)
          Timestamp.done Timestamp.done (scanInv_init stream)
      rw [List.nil_append] at hscan hfin
      rw [getNodeReadiness_of_scan stream st _ _ _ _ h0
        (by rw [hm1, hrd]; exact hscan)] at heq
      have hst' : st' = ⟨aliveSets stream st.sync_sets, idx', rts'⟩ := by
        by_cases h1 : 0 ≤ idx'
        · rw [if_pos h1] at heq
          simp only [Option.some.injEq, Prod.mk.injEq] at heq
          exact heq.2.2.symm
        · rw [if_neg h1] at heq
          by_cases h2 : aliveSets stream st.sync_sets = []
          · rw [if_pos h2] at heq
            simp only [Option.some.injEq, Prod.mk.injEq] at heq
            exact heq.2.2.symm
          · rw [if_neg h2] at heq
            simp only [Option.some.injEq, Prod.mk.injEq] at heq
            exact heq.2.2.symm
      rw [hst']
      by_cases h1 : 0 ≤ idx'
      · have hne : idx' ≠ -1 := by omega
        have hB := hfin.2
        rw [if_neg hne] at hB
        obtain ⟨-, hlt, -, hteq, -⟩ := hB
        have hrtne : rts' ≠ Timestamp.done := by
          rw [← hteq]
          exact hfin.1 _ (List.get_mem _ _ _)
        exact ⟨⟨fun hc => absurd hc hne, fun hc => absurd hc hrtne⟩,
          fun _ => ⟨h1, hlt⟩⟩
      · have hidx1 : idx' = -1 := scanInv_neg_eq_neg_one hfin h1
        have hB := hfin.2
        rw [if_pos hidx1] at hB
        rw [hidx1, hB.1]
        exact hdisarmed _
  · intro pop t st inp res h
    unfold fillInputSet at h
    split at h
    · exact absurd h (by simp)
    · split at h
      · exact absurd h (by simp)
      · split at h
        · exact absurd h (by simp)
        · cases hg : st.sync_sets[st.ready_sync_set_index.toNat]? with
          | none =>
              simp only [hg] at h
              exact absurd h (by simp)
          | some ss =>
              simp only [hg] at h
              cases hf : fillLoop pop t ss inp with
              | none =>
                  simp only [hf] at h
                  exact absurd h (by simp)
              | some o =>
                  simp only [hf, Option.some.injEq] at h
                  rw [← h]
                  exact hdisarmed _
  · intro st hci hge
    have hne : st.ready_sync_set_index ≠ -1 := by omega
    exact ⟨_, List.getElem?_eq_getElem (hci.2 hne).2⟩

theorem c9_cache_coherence_witness :
    CacheInv ⟨[[0]], 0, Timestamp.ts 3⟩ ∧
    getNodeReadiness cStream ⟨[[0]], 0, Timestamp.ts 3⟩ =
      some (NodeReadiness.kReadyForProcess, Timestamp.ts 3,
        ⟨[[0]], 0, Timestamp.ts 3⟩) ∧
    CacheInv ⟨[[0]], 0, Timestamp.ts 3⟩ := by
  have hci : CacheInv ⟨[[0]], 0, Timestamp.ts 3⟩ :=
    ⟨⟨fun h => absurd h (by decide), fun h => absurd h (by decide)⟩,
     fun _ => ⟨by decide, by decide⟩⟩
  exact ⟨hci, by decide,
    c9_cache_coherence.2.1 cStream ⟨[[0]], 0, Timestamp.ts 3⟩
      NodeReadiness.kReadyForProcess (Timestamp.ts 3)
      ⟨[[0]], 0, Timestamp.ts 3⟩ hci (by decide)⟩
